import Mathlib

/-!
Verification of the DPS-150 remote-control protocol engine.

The definitions below are a shallow embedding of the repository's two
protocol-bearing source files:

* `src/public/script.js` — the frame codec (`buildFrame`, `encodeFloat32`,
  `decodeFloat32`), the telemetry interpreter (`handleProtocolMessage`,
  `parseFullState`) and the command sequencer (`queueCommand`,
  `processQueue`);
* `src/main.ts` — the stream framer inside `startSerialReader`.

Bytes are modelled as natural numbers; `Uint8Array` stores are made
explicit with `% 256`.  IEEE-754 binary32 values produced by
`DataView.getFloat32(..., true)` are modelled exactly over `ℚ`
(every finite float is rational); the non-finite exponent `255` is not
used by the protocol and is mapped to `0`.
-/

namespace DPS150

/-! ## Frame codec (`src/public/script.js`, `DPS150Protocol`) -/

/-- The checksum formula of `buildFrame` (script.js line 37):
`(reg + len + sum(data)) & 0xFF`. -/
def checksum (reg len : Nat) (data : List Nat) : Nat :=
  (reg + len + data.sum) % 256

/-- `buildFrame(cmd, reg, data)` (script.js lines 35–48): header `0xF1`,
command, register, length, payload, checksum.  Each store into the
`Uint8Array` truncates modulo 256; the checksum is computed from the
unreduced arguments, exactly as in the source. -/
def buildFrame (cmd reg : Nat) (data : List Nat) : List Nat :=
  [241, cmd % 256, reg % 256, data.length % 256]
    ++ data.map (fun b => b % 256)
    ++ [checksum reg data.length data]

/-- Value of the IEEE-754 binary32 datum with the given 32-bit pattern,
as an exact rational: sign `s`, biased exponent `e`, mantissa `m`, value
`(-1)^s * (2^23 + m) * 2^(e-150)` for normal numbers and
`(-1)^s * m * 2^(-149)` for subnormals.  Exponent `255` (infinity/NaN,
never produced by the device protocol) is mapped to `0`. -/
def decodeFloat32Bits (bits : Nat) : ℚ :=
  let s : Nat := bits / 2 ^ 31
  let e : Nat := bits / 2 ^ 23 % 256
  let m : Nat := bits % 2 ^ 23
  let mag : ℚ :=
    if e = 0 then ((m : ℚ)) / (((2 ^ 149 : Nat) : ℚ))
    else if e = 255 then 0
    else if 150 ≤ e then (((2 ^ 23 + m) * 2 ^ (e - 150) : Nat) : ℚ)
    else (((2 ^ 23 + m : Nat) : ℚ)) / (((2 ^ (150 - e) : Nat) : ℚ))
  if s = 1 then -mag else mag

/-- `decodeFloat32(bytes, offset)` (script.js lines 57–65): if fewer than
4 bytes remain from `offset` it warns and returns the sentinel `0`;
otherwise it reads 4 bytes little-endian as an IEEE-754 binary32. -/
def decodeFloat32 (bytes : List Nat) (offset : Nat) : ℚ :=
  if bytes.length < offset + 4 then 0
  else decodeFloat32Bits
    (bytes.getD offset 0
      + 256 * (bytes.getD (offset + 1) 0
      + 256 * (bytes.getD (offset + 2) 0
      + 256 * bytes.getD (offset + 3) 0)))

/-- `decodeFloat32` warns exactly when its guard trips (script.js line 59):
the condition of the `console.warn` branch. -/
def decodeFloat32Warns (bytes : List Nat) (offset : Nat) : Bool :=
  bytes.length < offset + 4

/-- The little-endian bytes produced by `encodeFloat32(12.0)`
(script.js lines 50–55, `DataView.setFloat32(0, 12.0, true)`).
`12.0 = 1.5 × 2³` has sign 0, biased exponent 130, mantissa `2²²`,
bit pattern `0x41400000`, little-endian bytes `00 00 40 41`.  These
bytes are checked below against the bit-level binary32 decoder, which
recovers exactly `12`. -/
def encodeFloat32Twelve : List Nat := [0, 0, 64, 65]

/-! ## Telemetry interpreter (`src/public/script.js`, `setup`) -/

/-- The protection-state table (script.js lines 463–464 and 508–509):
`["", "OVP", "OCP", "OPP", "OTP", "LVP"][c] || "OK"`.  Both the empty
string at ordinal 0 and an out-of-range lookup (`undefined`) are falsy
in JavaScript, hence yield `"OK"`. -/
def protectionLabel (c : Nat) : String :=
  let s := (["", "OVP", "OCP", "OPP", "OTP", "LVP"].getD c "")
  if s = "" then "OK" else s

/-- The mode decode (script.js lines 470 and 511):
`data[0] === 0 ? "CC" : "CV"`. -/
def modeLabel (c : Nat) : String :=
  if c = 0 then "CC" else "CV"

/-- The client-held device snapshot: the Vue refs mutated by
`handleProtocolMessage` and `parseFullState` (script.js lines 332–343). -/
structure DeviceState where
  outputEnabled : Bool
  voltageSetpoint : ℚ
  currentLimit : ℚ
  actualVoltage : ℚ
  actualCurrent : ℚ
  outputPower : ℚ
  internalTemperature : ℚ
  inputVoltage : ℚ
  voltageMode : String
  status : String
deriving DecidableEq

/-- The initial ref values (script.js lines 332–343): setpoint `12.0`,
current limit `0.5`, telemetry zero, mode `"CC"`, status `"OK"`. -/
def initialState : DeviceState :=
  { outputEnabled := false
    voltageSetpoint := 12
    currentLimit := 1 / 2
    actualVoltage := 0
    actualCurrent := 0
    outputPower := 0
    internalTemperature := 0
    inputVoltage := 0
    voltageMode := "CC"
    status := "OK" }

/-- `parseFullState(data)` (script.js lines 484–515): payloads shorter
than 139 bytes are rejected with a warning and no field is touched;
otherwise the documented fields are read at their fixed offsets. -/
def parseFullState (st : DeviceState) (data : List Nat) : DeviceState :=
  if data.length < 139 then st
  else
    { st with
      inputVoltage := decodeFloat32 data 0
      voltageSetpoint := decodeFloat32 data 4
      currentLimit := decodeFloat32 data 8
      actualVoltage := decodeFloat32 data 12
      actualCurrent := decodeFloat32 data 16
      outputPower := decodeFloat32 data 20
      internalTemperature := decodeFloat32 data 24
      outputEnabled := data.getD 107 0 == 1
      status := protectionLabel (data.getD 108 0)
      voltageMode := modeLabel (data.getD 109 0) }

/-- The `switch (reg)` body of `handleProtocolMessage`
(script.js lines 422–481), applied to the already-sliced payload. -/
def dispatchReg (st : DeviceState) (reg len : Nat) (data : List Nat) :
    DeviceState :=
  if reg = 193 then
    if 4 ≤ len then { st with voltageSetpoint := decodeFloat32 data 0 } else st
  else if reg = 194 then
    if 4 ≤ len then { st with currentLimit := decodeFloat32 data 0 } else st
  else if reg = 192 then
    if 4 ≤ len then { st with inputVoltage := decodeFloat32 data 0 } else st
  else if reg = 195 then
    if 12 ≤ len then
      { st with
        actualVoltage := decodeFloat32 data 0
        actualCurrent := decodeFloat32 data 4
        outputPower := decodeFloat32 data 8 }
    else st
  else if reg = 196 then
    if 4 ≤ len then { st with internalTemperature := decodeFloat32 data 0 }
    else st
  else if reg = 219 then
    if 1 ≤ len then { st with outputEnabled := data.getD 0 0 == 1 } else st
  else if reg = 220 then
    if 1 ≤ len then { st with status := protectionLabel (data.getD 0 0) }
    else st
  else if reg = 221 then
    if 1 ≤ len then { st with voltageMode := modeLabel (data.getD 0 0) }
    else st
  else if reg = 255 then parseFullState st data
  else st

/-- `handleProtocolMessage(bytes)` (script.js lines 408–482): frames
shorter than 5 bytes, frames whose header is not `0xF0`, and frames with
`len = 0` are ignored; otherwise the payload `bytes.slice(4, 4 + len)`
is dispatched on the register byte.  No checksum is inspected. -/
def handleProtocolMessage (st : DeviceState) (bytes : List Nat) :
    DeviceState :=
  if bytes.length < 5 then st
  else if bytes.getD 0 0 ≠ 240 then st
  else if bytes.getD 3 0 = 0 then st
  else
    dispatchReg st (bytes.getD 2 0) (bytes.getD 3 0)
      ((bytes.drop 4).take (bytes.getD 3 0))

/-! ## Stream framer (`src/main.ts`, `startSerialReader`, lines 120–156) -/

/-- `buffer.indexOf(0xF0)`: index of the first `0xF0`, if any. -/
def findF0 : List Nat → Option Nat
  | [] => none
  | b :: rest => if b = 240 then some 0 else (findF0 rest).map (fun i => i + 1)

/-- The inner `while` loop of the read loop (main.ts lines 133–142):
starting at a sentinel, repeatedly look for the next `0xF0`
(`buffer.indexOf(0xF0, start + 1)`); each span from one sentinel up to
(excluding) the next is emitted as a frame, and the scan restarts at the
second sentinel.  Returns the emitted frames and the retained suffix
from the last sentinel onward. -/
def extract (buf : List Nat) : List (List Nat) × List Nat :=
  match h : findF0 buf.tail with
  | none => ([], buf)
  | some p =>
    let r := extract (buf.drop (p + 1))
    (buf.take (p + 1) :: r.1, r.2)
termination_by buf.length
decreasing_by
  cases buf with
  | nil => simp [findF0] at h
  | cons a l => simp [List.length_drop]; omega

/-- One pass of the read loop (main.ts lines 131–148): append the chunk
to the accumulation buffer, emit every complete sentinel-delimited span,
and retain from the last sentinel onward (or empty the buffer when it
holds no sentinel).  Returns (new buffer, frames broadcast in order). -/
def feedChunk (buffer chunk : List Nat) : List Nat × List (List Nat) :=
  let buf := buffer ++ chunk
  match findF0 buf with
  | none => ([], [])
  | some i =>
    let r := extract (buf.drop i)
    (r.2, r.1)

/-- The read loop over a whole sequence of received chunks, starting
from the given buffer. -/
def feedAll (buffer : List Nat) : List (List Nat) → List Nat × List (List Nat)
  | [] => (buffer, [])
  | c :: cs =>
    let r := feedChunk buffer c
    let r2 := feedAll r.1 cs
    (r2.1, r.2 ++ r2.2)

/-- Shape of a well-formed wire frame as the framer sees it: it begins
with the sentinel `0xF0` and contains no further sentinel byte. -/
def isFrameShape (f : List Nat) : Prop :=
  f.head? = some 240 ∧ ∀ x ∈ f.tail, x ≠ 240

instance (f : List Nat) : Decidable (isFrameShape f) := by
  unfold isFrameShape; infer_instance

/-! ## Command sequencer (`src/public/script.js`, lines 122–137)

`queueCommand(frame)` pushes the frame and, when no drain loop is in
flight (`!isProcessing`), awaits `processQueue()`; `processQueue` sets
`isProcessing`, then repeatedly shifts one frame, sends it, and sleeps
50 ms, clearing `isProcessing` when the queue empties.  JavaScript is
single-threaded: an async function runs synchronously up to its first
`await`, and other calls interleave only at `await` points.  The model
below makes those suspension points explicit:

* `SeqEvent.enq f` — a call to `queueCommand(f)`.  When a drain is in
  flight the call only pushes (its promise resolves at once); when idle
  it starts `processQueue`, which synchronously sends the first queued
  frame before suspending on the 50 ms timer.
* `SeqEvent.tick` — the pending 50 ms timer fires: 50 ms elapse, then
  the loop either sends the next queued frame or exits, clearing
  `isProcessing`.

`sent` records `(timestamp, frame)` in transmit order; `drains` is a
ghost counter of `processQueue` activations currently in flight. -/

/-- A queued command, identified by its frame id. -/
structure SeqState where
  commandQueue : List Nat
  isProcessing : Bool
  sent : List (Nat × Nat)
  now : Nat
  drains : Nat
deriving DecidableEq

/-- The sequencer before any call: empty queue, no drain in flight. -/
def seqInit : SeqState := ⟨[], false, [], 0, 0⟩

/-- The events observable at the sequencer's suspension points. -/
inductive SeqEvent where
  | enq (f : Nat)
  | tick
deriving DecidableEq

/-- One event of the sequencer, following `queueCommand`/`processQueue`
verbatim (see the section comment above). -/
def seqStep (s : SeqState) : SeqEvent → SeqState
  | .enq f =>
    let q := s.commandQueue ++ [f]
    if s.isProcessing then { s with commandQueue := q }
    else
      match q with
      | [] => { s with commandQueue := [], isProcessing := false }
      | g :: rest =>
        { s with
          commandQueue := rest
          isProcessing := true
          sent := s.sent ++ [(s.now, g)]
          drains := s.drains + 1 }
  | .tick =>
    if s.isProcessing then
      match s.commandQueue with
      | [] =>
        { s with
          isProcessing := false
          now := s.now + 50
          drains := s.drains - 1 }
      | g :: rest =>
        { s with
          commandQueue := rest
          sent := s.sent ++ [(s.now + 50, g)]
          now := s.now + 50 }
    else s

/-- Run the sequencer over a sequence of events. -/
def seqRun (s : SeqState) : List SeqEvent → SeqState
  | [] => s
  | e :: es => seqRun (seqStep s e) es

/-- The frames enqueued by a sequence of events, in arrival order. -/
def enqs : List SeqEvent → List Nat
  | [] => []
  | .enq f :: es => f :: enqs es
  | .tick :: es => enqs es

/-! ## Helper lemmas -/

lemma map_mod_256_eq (l : List Nat) (h : ∀ b ∈ l, b < 256) :
    l.map (fun b => b % 256) = l := by
  induction l with
  | nil => rfl
  | cons a t ih =>
    simp only [List.map_cons, List.cons.injEq]
    exact ⟨Nat.mod_eq_of_lt (h a (by simp)),
      ih (fun b hb => h b (by simp [hb]))⟩

lemma handleProtocolMessage_cons (st : DeviceState) (cmd reg len : Nat)
    (rest : List Nat) (hr : rest ≠ []) :
    handleProtocolMessage st (240 :: cmd :: reg :: len :: rest) =
      if len = 0 then st else dispatchReg st reg len (rest.take len) := by
  have h5 : ¬ ((240 :: cmd :: reg :: len :: rest).length < 5) := by
    have : rest.length ≠ 0 := fun h => hr (List.length_eq_zero.mp h)
    simp only [List.length_cons]
    omega
  have hhd : ¬ ((240 :: cmd :: reg :: len :: rest).getD 0 0 ≠ 240) := by simp
  unfold handleProtocolMessage
  rw [if_neg h5, if_neg hhd]
  simp [List.getD_cons_zero, List.getD_cons_succ]

lemma findF0_eq_none {l : List Nat} :
    findF0 l = none ↔ ∀ x ∈ l, x ≠ 240 := by
  induction l with
  | nil => simp [findF0]
  | cons a t ih =>
    by_cases ha : a = 240
    · simp [findF0, ha]
    · simp [findF0, ha, ih]

lemma findF0_append_left {a : List Nat} {i : Nat} (b : List Nat)
    (h : findF0 a = some i) : findF0 (a ++ b) = some i := by
  induction a generalizing i with
  | nil => simp [findF0] at h
  | cons x t ih =>
    by_cases hx : x = 240
    · simp [findF0, hx] at h ⊢
      exact h
    · simp [findF0, hx, Option.map_eq_some'] at h ⊢
      obtain ⟨j, hj, rfl⟩ := h
      exact ⟨j, ih hj, rfl⟩

lemma findF0_append_none {a : List Nat} (b : List Nat)
    (h : findF0 a = none) :
    findF0 (a ++ b) = (findF0 b).map (fun i => i + a.length) := by
  induction a with
  | nil => simp
  | cons x t ih =>
    by_cases hx : x = 240
    · simp [findF0, hx] at h
    · simp [findF0, hx] at h ⊢
      rw [ih h]
      cases findF0 b with
      | none => simp
      | some j => simp; omega

lemma findF0_some_lt {l : List Nat} {i : Nat} (h : findF0 l = some i) :
    i < l.length := by
  induction l generalizing i with
  | nil => simp [findF0] at h
  | cons x t ih =>
    by_cases hx : x = 240
    · simp [findF0, hx] at h
      simp only [List.length_cons]
      omega
    · simp [findF0, hx, Option.map_eq_some'] at h
      obtain ⟨j, hj, rfl⟩ := h
      have := ih hj
      simp only [List.length_cons]
      omega

lemma findF0_drop_head {l : List Nat} {i : Nat} (h : findF0 l = some i) :
    (l.drop i).head? = some 240 := by
  induction l generalizing i with
  | nil => simp [findF0] at h
  | cons x t ih =>
    by_cases hx : x = 240
    · simp [findF0, hx] at h
      subst h
      simp [hx]
    · simp [findF0, hx, Option.map_eq_some'] at h
      obtain ⟨j, hj, rfl⟩ := h
      simpa using ih hj

lemma findF0_of_head {l : List Nat} (h : l.head? = some 240) :
    findF0 l = some 0 := by
  cases l with
  | nil => simp at h
  | cons x t =>
    simp at h
    simp [findF0, h]

lemma extract_of_none (buf : List Nat) (h : findF0 buf.tail = none) :
    extract buf = ([], buf) := by
  rw [extract]
  split
  · rfl
  · rename_i p hp
    rw [h] at hp
    exact absurd hp (by simp)

lemma extract_of_some (buf : List Nat) {p : Nat}
    (h : findF0 buf.tail = some p) :
    extract buf =
      ((buf.take (p + 1)) :: (extract (buf.drop (p + 1))).1,
       (extract (buf.drop (p + 1))).2) := by
  rw [extract]
  split
  · rename_i hn
    rw [h] at hn
    exact absurd hn (by simp)
  · rename_i q hq
    rw [h] at hq
    cases hq
    rfl

/-- The suffix retained by the scan loop starts at the last sentinel
found: it again begins with `0xF0`. -/
theorem extract_rest_head (buf : List Nat) (hb : buf.head? = some 240) :
    ((extract buf).2).head? = some 240 := by
  cases h : findF0 buf.tail with
  | none =>
    rw [extract_of_none _ h]
    exact hb
  | some p =>
    rw [extract_of_some _ h]
    have hd : (buf.drop (p + 1)).head? = some 240 := by
      cases buf with
      | nil => simp at hb
      | cons a t => simpa [List.drop_succ_cons] using findF0_drop_head h
    exact extract_rest_head (buf.drop (p + 1)) hd
termination_by buf.length
decreasing_by
  cases buf with
  | nil => simp at hb
  | cons a t =>
    simp [List.length_drop]
    omega

/-- Every frame emitted by the scan loop starts at a sentinel. -/
theorem extract_frames_head (buf : List Nat) (hb : buf.head? = some 240) :
    ∀ f ∈ (extract buf).1, f.head? = some 240 := by
  cases h : findF0 buf.tail with
  | none =>
    rw [extract_of_none _ h]
    simp
  | some p =>
    rw [extract_of_some _ h]
    intro f hf
    rcases List.mem_cons.mp hf with rfl | hf'
    · cases buf with
      | nil => simp at hb
      | cons a t =>
        simp only [List.take_succ_cons, List.head?_cons]
        simpa using hb
    · have hd : (buf.drop (p + 1)).head? = some 240 := by
        cases buf with
        | nil => simp at hb
        | cons a t => simpa [List.drop_succ_cons] using findF0_drop_head h
      exact extract_frames_head (buf.drop (p + 1)) hd f hf'
termination_by buf.length
decreasing_by
  cases buf with
  | nil => simp at hb
  | cons a t =>
    simp [List.length_drop]
    omega

/-- Appending further bytes after a scan: the frames already complete
are emitted unchanged, and scanning continues from the retained
suffix. -/
theorem extract_append (x c : List Nat) (hx : x.head? = some 240) :
    extract (x ++ c) =
      ((extract x).1 ++ (extract ((extract x).2 ++ c)).1,
       (extract ((extract x).2 ++ c)).2) := by
  cases h : findF0 x.tail with
  | none =>
    rw [extract_of_none _ h]
    simp
  | some p =>
    have hlt : p < x.tail.length := findF0_some_lt h
    have hle : p + 1 ≤ x.length := by
      cases x with
      | nil => simp at hx
      | cons a t =>
        simp only [List.tail_cons] at hlt
        simp only [List.length_cons]
        omega
    have hd : (x.drop (p + 1)).head? = some 240 := by
      cases x with
      | nil => simp at hx
      | cons a t => simpa [List.drop_succ_cons] using findF0_drop_head h
    have htail : (x ++ c).tail = x.tail ++ c := by
      cases x with
      | nil => simp at hx
      | cons a t => rfl
    rw [extract_of_some _ h,
      extract_of_some (x ++ c)
        (by rw [htail]; exact findF0_append_left c h),
      List.take_append_of_le_length hle,
      List.drop_append_of_le_length hle,
      extract_append (x.drop (p + 1)) c hd]
    simp
termination_by x.length
decreasing_by
  simp [List.length_drop]
  omega

lemma feedChunk_of_none (buffer chunk : List Nat)
    (h : findF0 (buffer ++ chunk) = none) :
    feedChunk buffer chunk = ([], []) := by
  simp only [feedChunk]
  rw [h]

lemma feedChunk_of_some (buffer chunk : List Nat) {i : Nat}
    (h : findF0 (buffer ++ chunk) = some i) :
    feedChunk buffer chunk =
      ((extract ((buffer ++ chunk).drop i)).2,
       (extract ((buffer ++ chunk).drop i)).1) := by
  simp only [feedChunk]
  rw [h]

/-- Splitting one chunk in two and feeding the halves in order yields
the same frames and the same retained buffer as feeding it whole. -/
theorem feedChunk_append (b c1 c2 : List Nat) :
    feedChunk b (c1 ++ c2) =
      ((feedChunk (feedChunk b c1).1 c2).1,
       (feedChunk b c1).2 ++ (feedChunk (feedChunk b c1).1 c2).2) := by
  have hassoc : b ++ (c1 ++ c2) = (b ++ c1) ++ c2 :=
    (List.append_assoc b c1 c2).symm
  cases h : findF0 (b ++ c1) with
  | none =>
    have hmain : findF0 (b ++ (c1 ++ c2)) =
        (findF0 c2).map (fun i => i + (b ++ c1).length) := by
      rw [hassoc]
      exact findF0_append_none c2 h
    rw [feedChunk_of_none _ _ h]
    cases h2 : findF0 c2 with
    | none =>
      rw [feedChunk_of_none [] c2 (by simpa using h2),
        feedChunk_of_none _ _ (by rw [hmain, h2]; rfl)]
      rfl
    | some j =>
      have hL : findF0 (b ++ (c1 ++ c2)) = some (j + (b ++ c1).length) := by
        rw [hmain, h2]
        rfl
      have hdrop : (b ++ (c1 ++ c2)).drop (j + (b ++ c1).length) =
          c2.drop j := by
        rw [hassoc, add_comm, ← List.drop_drop, List.drop_left]
      rw [feedChunk_of_some _ _ hL,
        feedChunk_of_some [] c2 (by simpa using h2), hdrop]
      simp
  | some i =>
    have hi : i ≤ (b ++ c1).length := le_of_lt (findF0_some_lt h)
    have hx : ((b ++ c1).drop i).head? = some 240 := findF0_drop_head h
    have hrest : ((extract ((b ++ c1).drop i)).2).head? = some 240 :=
      extract_rest_head _ hx
    have hL : findF0 (b ++ (c1 ++ c2)) = some i := by
      rw [hassoc]
      exact findF0_append_left c2 h
    have h0 : findF0 ((extract ((b ++ c1).drop i)).2 ++ c2) = some 0 := by
      apply findF0_of_head
      rw [List.head?_append, hrest]
      rfl
    have hdrop : (b ++ (c1 ++ c2)).drop i = ((b ++ c1).drop i) ++ c2 := by
      rw [hassoc]
      exact List.drop_append_of_le_length hi
    rw [feedChunk_of_some _ _ h, feedChunk_of_some _ _ hL,
      feedChunk_of_some (extract ((b ++ c1).drop i)).2 c2 h0,
      hdrop, extract_append _ c2 hx]
    simp

/-- Feeding chunks one at a time agrees with feeding their
concatenation as one chunk. -/
lemma feedAll_cons (b c : List Nat) (cs : List (List Nat)) :
    feedAll b (c :: cs) =
      ((feedAll (feedChunk b c).1 cs).1,
       (feedChunk b c).2 ++ (feedAll (feedChunk b c).1 cs).2) := rfl

lemma feedAll_cons_flatten :
    ∀ (cs : List (List Nat)) (c b : List Nat),
      feedAll b (c :: cs) = feedChunk b (c ++ cs.flatten) := by
  intro cs
  induction cs with
  | nil =>
    intro c b
    rw [feedAll_cons]
    simp [feedAll]
  | cons c' cs ih =>
    intro c b
    rw [feedAll_cons, ih c' (feedChunk b c).1, List.flatten_cons,
      feedChunk_append b c (c' ++ cs.flatten)]

lemma findF0_flatten_sentinel (fs : List (List Nat))
    (hfs : ∀ f ∈ fs, isFrameShape f) :
    findF0 (fs.flatten ++ [240]) = some 0 := by
  apply findF0_of_head
  cases fs with
  | nil => rfl
  | cons f fs =>
    have hf : f.head? = some 240 := (hfs f (by simp)).1
    simp [List.head?_append, hf]

/-- Scanning the concatenation of well-shaped frames followed by a
final sentinel emits exactly those frames, retaining the sentinel. -/
lemma extract_flatten :
    ∀ fs : List (List Nat), (∀ f ∈ fs, isFrameShape f) →
      extract (fs.flatten ++ [240]) = (fs, [240]) := by
  intro fs
  induction fs with
  | nil =>
    intro _
    exact extract_of_none _ (by rfl)
  | cons f fs ih =>
    intro hfs
    obtain ⟨hhd, htl⟩ := hfs f (by simp)
    obtain ⟨t, rfl⟩ : ∃ t, f = 240 :: t := by
      cases f with
      | nil => simp at hhd
      | cons a t =>
        simp at hhd
        exact ⟨t, by rw [hhd]⟩
    have hrest : ∀ g ∈ fs, isFrameShape g := fun g hg => hfs g (by simp [hg])
    have hS : ((240 :: t) :: fs).flatten ++ [240] =
        240 :: (t ++ (fs.flatten ++ [240])) := by
      simp
    have hfind : findF0 (t ++ (fs.flatten ++ [240])) = some t.length := by
      rw [findF0_append_none _ (findF0_eq_none.mpr (by simpa using htl)),
        findF0_flatten_sentinel fs hrest]
      simp
    rw [hS, extract_of_some (240 :: (t ++ (fs.flatten ++ [240])))
      (by simpa using hfind)]
    have htake : (240 :: (t ++ (fs.flatten ++ [240]))).take (t.length + 1) =
        240 :: t := by
      simp [List.take_succ_cons, List.take_left]
    have hdrop : (240 :: (t ++ (fs.flatten ++ [240]))).drop (t.length + 1) =
        fs.flatten ++ [240] := by
      simp [List.drop_succ_cons, List.drop_left]
    rw [htake, hdrop, ih hrest]

/-- Feeding a frame stream that ends at a sentinel boundary emits
exactly its frames. -/
lemma feedChunk_flatten (fs : List (List Nat))
    (hfs : ∀ f ∈ fs, isFrameShape f) :
    feedChunk [] (fs.flatten ++ [240]) = ([240], fs) := by
  rw [feedChunk_of_some [] (fs.flatten ++ [240])
    (by simpa using findF0_flatten_sentinel fs hfs)]
  simp [extract_flatten fs hfs]

/-- Every frame emitted in one pass of the read loop starts with the
sentinel, whatever the buffer held. -/
lemma feedChunk_frames_head (b c : List Nat) :
    ∀ f ∈ (feedChunk b c).2, f.head? = some 240 := by
  cases h : findF0 (b ++ c) with
  | none =>
    rw [feedChunk_of_none _ _ h]
    simp
  | some i =>
    rw [feedChunk_of_some _ _ h]
    exact extract_frames_head _ (findF0_drop_head h)

lemma feedAll_frames_head (cs : List (List Nat)) :
    ∀ (b : List Nat), ∀ f ∈ (feedAll b cs).2, f.head? = some 240 := by
  induction cs with
  | nil =>
    intro b f hf
    simp [feedAll] at hf
  | cons c cs ih =>
    intro b f hf
    simp only [feedAll, List.mem_append] at hf
    rcases hf with hf | hf
    · exact feedChunk_frames_head b c f hf
    · exact ih _ f hf

/-! ## Claims -/

/-- C2: for every command byte, register byte and payload of at most 255
bytes, `buildFrame(cmd, reg, data)` returns exactly `N + 5` bytes:
`0xF1`, the command, the register, `N`, the payload in order, and the
trailing checksum `(reg + N + sum(data)) mod 256`. -/
theorem buildFrame_bytes (cmd reg : Nat) (data : List Nat)
    (hc : cmd < 256) (hr : reg < 256) (hl : data.length ≤ 255)
    (hd : ∀ b ∈ data, b < 256) :
    buildFrame cmd reg data =
      [241, cmd, reg, data.length] ++ data
        ++ [(reg + data.length + data.sum) % 256] ∧
    (buildFrame cmd reg data).length = data.length + 5 := by
  have hlen : data.length % 256 = data.length :=
    Nat.mod_eq_of_lt (by omega)
  constructor
  · simp [buildFrame, checksum, Nat.mod_eq_of_lt hc, Nat.mod_eq_of_lt hr,
      hlen, map_mod_256_eq data hd]
  · simp [buildFrame]

theorem buildFrame_bytes_witness :
    (177 : Nat) < 256 ∧
    buildFrame 177 193 [1, 2] =
      [241, 177, 193, ([1, 2] : List Nat).length] ++ [1, 2]
        ++ [(193 + ([1, 2] : List Nat).length + ([1, 2] : List Nat).sum) % 256] :=
  ⟨by decide,
   (buildFrame_bytes 177 193 [1, 2] (by decide) (by decide) (by decide)
      (by decide)).1⟩

/-- C5 counterexample: the spec's expected frame ends in `0xC6`, but the
checksum of `encode(SET, 0xC1, f32(12.0))` is
`(0xC1 + 4 + 0x40 + 0x41) mod 256 = 0x46`, so `buildFrame` does not
produce `F1 B1 C1 04 00 00 40 41 C6`. -/
theorem voltage_frame_not_spec_bytes :
    buildFrame 177 193 encodeFloat32Twelve ≠
      [241, 177, 193, 4, 0, 0, 64, 65, 198] := by decide

/-- C5 amended: `buildFrame(CMD_SET, 0xC1, encodeFloat32(12.0))`
produces exactly `F1 B1 C1 04 00 00 40 41 46` (final checksum byte
`0x46`, not the spec's `0xC6`), and `decodeFloat32` at offset 0 of the
4-byte payload yields exactly `12.0`. -/
theorem voltage_frame_bytes :
    buildFrame 177 193 encodeFloat32Twelve =
      [241, 177, 193, 4, 0, 0, 64, 65, 70] ∧
    decodeFloat32 encodeFloat32Twelve 0 = 12 := by
  refine ⟨by decide, ?_⟩
  norm_num [decodeFloat32, decodeFloat32Bits, encodeFloat32Twelve]

/-- C7: whenever fewer than 4 bytes remain from `offset`,
`decodeFloat32` returns the sentinel `0` and takes the warning branch;
being a total function over the list it never reads past the end and
never throws. -/
theorem decodeFloat32_short (bytes : List Nat) (offset : Nat)
    (h : bytes.length < offset + 4) :
    decodeFloat32 bytes offset = 0 ∧
    decodeFloat32Warns bytes offset = true := by
  constructor
  · simp [decodeFloat32, h]
  · simp [decodeFloat32Warns, h]

theorem decodeFloat32_short_witness :
    ([1, 2, 3] : List Nat).length < 0 + 4 ∧
    decodeFloat32 [1, 2, 3] 0 = 0 ∧ decodeFloat32Warns [1, 2, 3] 0 = true :=
  ⟨by decide,
   (decodeFloat32_short [1, 2, 3] 0 (by decide)).1,
   (decodeFloat32_short [1, 2, 3] 0 (by decide)).2⟩

/-- C9: protection-state and mode bytes are decoded through the fixed
ordinal-to-label tables (`0→"OK"`/none, `1→OVP`, `2→OCP`, `3→OPP`,
`4→OTP`, `5→LVP`; mode `0→CC`, `1→CV`); every out-of-range ordinal
(protection `≥ 6`, mode `≥ 2`) decodes to the safe default ("OK",
respectively the default branch "CV") rather than failing, and
`handleProtocolMessage` applies exactly these tables to single-byte
`0xDC` and `0xDD` frames. -/
theorem protection_mode_tables :
    protectionLabel 0 = "OK" ∧ protectionLabel 1 = "OVP" ∧
    protectionLabel 2 = "OCP" ∧ protectionLabel 3 = "OPP" ∧
    protectionLabel 4 = "OTP" ∧ protectionLabel 5 = "LVP" ∧
    (∀ c, 6 ≤ c → protectionLabel c = "OK") ∧
    modeLabel 0 = "CC" ∧ modeLabel 1 = "CV" ∧
    (∀ c, 2 ≤ c → modeLabel c = "CV") ∧
    (∀ st c b, (handleProtocolMessage st [240, c, 220, 1, b]).status =
      protectionLabel b) ∧
    (∀ st c b, (handleProtocolMessage st [240, c, 221, 1, b]).voltageMode =
      modeLabel b) := by
  refine ⟨by decide, by decide, by decide, by decide, by decide, by decide,
    ?_, by decide, by decide, ?_, ?_, ?_⟩
  · intro c hc
    have hnone : (["", "OVP", "OCP", "OPP", "OTP", "LVP"] : List String)[c]?
        = none := by
      apply List.getElem?_eq_none
      simp
      omega
    simp [protectionLabel, hnone]
  · intro c hc
    have : c ≠ 0 := by omega
    simp [modeLabel, this]
  · intro st c b
    rw [handleProtocolMessage_cons st c 220 1 [b] (by simp)]
    simp [dispatchReg]
  · intro st c b
    rw [handleProtocolMessage_cons st c 221 1 [b] (by simp)]
    simp [dispatchReg]

theorem protection_mode_tables_witness :
    6 ≤ 9 ∧ protectionLabel 9 = "OK" ∧ 2 ≤ 7 ∧ modeLabel 7 = "CV" ∧
    (handleProtocolMessage initialState [240, 161, 220, 1, 9]).status =
      protectionLabel 9 := by
  obtain ⟨-, -, -, -, -, -, hp, -, -, hm, hs, -⟩ := protection_mode_tables
  exact ⟨by decide, hp 9 (by decide), by decide, hm 7 (by decide),
    hs initialState 161 9⟩

/-- C6: the composite all-state decoder is all-or-nothing: a payload
shorter than 139 bytes updates zero `DeviceState` fields, and a payload
of at least 139 bytes updates all documented fields — input voltage @0,
voltage setpoint @4, current limit @8, actual voltage @12, actual
current @16, power @20, temperature @24, output-enable @107,
protection @108, mode @109 — in one atomic update. -/
theorem parseFullState_all_or_nothing (st : DeviceState) (data : List Nat) :
    (data.length < 139 → parseFullState st data = st) ∧
    (139 ≤ data.length →
      parseFullState st data =
        { st with
          inputVoltage := decodeFloat32 data 0
          voltageSetpoint := decodeFloat32 data 4
          currentLimit := decodeFloat32 data 8
          actualVoltage := decodeFloat32 data 12
          actualCurrent := decodeFloat32 data 16
          outputPower := decodeFloat32 data 20
          internalTemperature := decodeFloat32 data 24
          outputEnabled := data.getD 107 0 == 1
          status := protectionLabel (data.getD 108 0)
          voltageMode := modeLabel (data.getD 109 0) }) := by
  constructor
  · intro h
    simp [parseFullState, h]
  · intro h
    rw [parseFullState, if_neg (by omega)]

theorem parseFullState_all_or_nothing_witness :
    parseFullState initialState (List.replicate 138 7) = initialState ∧
    parseFullState initialState (List.replicate 139 7) =
      { initialState with
        inputVoltage := decodeFloat32 (List.replicate 139 7) 0
        voltageSetpoint := decodeFloat32 (List.replicate 139 7) 4
        currentLimit := decodeFloat32 (List.replicate 139 7) 8
        actualVoltage := decodeFloat32 (List.replicate 139 7) 12
        actualCurrent := decodeFloat32 (List.replicate 139 7) 16
        outputPower := decodeFloat32 (List.replicate 139 7) 20
        internalTemperature := decodeFloat32 (List.replicate 139 7) 24
        outputEnabled := (List.replicate 139 7).getD 107 0 == 1
        status := protectionLabel ((List.replicate 139 7).getD 108 0)
        voltageMode := modeLabel ((List.replicate 139 7).getD 109 0) } :=
  ⟨(parseFullState_all_or_nothing initialState (List.replicate 138 7)).1
      (by simp),
   (parseFullState_all_or_nothing initialState (List.replicate 139 7)).2
      (by simp)⟩

/-- C1 counterexample: in the spec's own stream
`F0 A1 C1 00 C1 F0 B1 DB 01 01 DC F0` the framer extracts the second
frame `F0 B1 DB 01 01 DC`, whose trailing byte `0xDC` differs from the
checksum `(0xDB + 1 + 1) mod 256 = 0xDD`; yet `handleProtocolMessage`
never validates checksums, so this corrupt frame is *not* discarded: it
flips the `outputEnabled` field of the freshly-initialised
`DeviceState` from `false` to `true`. -/
theorem corrupt_frame_updates_state :
    checksum 219 1 [1] = 221 ∧ (221 : Nat) ≠ 220 ∧
    (feedChunk [] [240, 161, 193, 0, 193, 240, 177, 219, 1, 1, 220, 240]).2 =
      [[240, 161, 193, 0, 193], [240, 177, 219, 1, 1, 220]] ∧
    initialState.outputEnabled = false ∧
    (handleProtocolMessage initialState
      [240, 177, 219, 1, 1, 220]).outputEnabled = true := by
  refine ⟨by decide, by decide, ?_, by decide, by decide⟩
  simp [feedChunk, findF0, extract]

/-- C1 amended: received frames are never checksum-validated.  The
trailing byte is ignored entirely: `handleProtocolMessage` yields the
same state for any two values of the byte after the `len`-byte payload,
so a frame with a mismatched checksum is processed exactly like a valid
one (it is never raised as an error or reported upstream, but it may
update `DeviceState` fields); frame extraction of subsequent frames is
unaffected either way. -/
theorem handleProtocolMessage_ignores_checksum (st : DeviceState)
    (cmd reg len : Nat) (payload : List Nat) (c c' : Nat)
    (h : payload.length = len) :
    handleProtocolMessage st (240 :: cmd :: reg :: len :: (payload ++ [c])) =
      handleProtocolMessage st
        (240 :: cmd :: reg :: len :: (payload ++ [c'])) := by
  subst h
  rw [handleProtocolMessage_cons st cmd reg _ _ (by simp),
    handleProtocolMessage_cons st cmd reg _ _ (by simp),
    List.take_left, List.take_left]

theorem handleProtocolMessage_ignores_checksum_witness :
    ([1] : List Nat).length = 1 ∧
    handleProtocolMessage initialState (240 :: 177 :: 219 :: 1 :: ([1] ++ [220])) =
      handleProtocolMessage initialState
        (240 :: 177 :: 219 :: 1 :: ([1] ++ [221])) :=
  ⟨by decide,
   handleProtocolMessage_ignores_checksum initialState 177 219 1 [1] 220 221
     (by decide)⟩

/-- C3: the stream framer is invariant under chunking — feeding any
sequence of chunks in order emits exactly the same frames, byte-identical
and in the same order (and leaves the same retained buffer), as feeding
their whole concatenation as one chunk; and a byte sequence consisting
of K well-shaped frames delimited by a final sentinel yields exactly
those K frames under any chunking. -/
theorem framer_chunking_invariant :
    (∀ cs : List (List Nat), feedAll [] cs = feedChunk [] cs.flatten) ∧
    (∀ fs cs : List (List Nat), (∀ f ∈ fs, isFrameShape f) →
      cs.flatten = fs.flatten ++ [240] → (feedAll [] cs).2 = fs) := by
  have h1 : ∀ cs : List (List Nat), feedAll [] cs = feedChunk [] cs.flatten := by
    intro cs
    cases cs with
    | nil => rfl
    | cons c cs => exact feedAll_cons_flatten cs c []
  refine ⟨h1, ?_⟩
  intro fs cs hfs hj
  rw [h1 cs, hj, feedChunk_flatten fs hfs]

theorem framer_chunking_invariant_witness :
    (∀ f ∈ ([[240, 161, 193, 0, 193], [240, 177, 219, 1, 1, 220]] :
        List (List Nat)), isFrameShape f) ∧
    (feedAll []
        [[240], [161, 193], [0, 193, 240, 177], [219], [1, 1, 220, 240]]).2 =
      [[240, 161, 193, 0, 193], [240, 177, 219, 1, 1, 220]] :=
  ⟨by decide,
   framer_chunking_invariant.2
     [[240, 161, 193, 0, 193], [240, 177, 219, 1, 1, 220]]
     [[240], [161, 193], [0, 193, 240, 177], [219], [1, 1, 220, 240]]
     (by decide) (by decide)⟩

/-- C10: invariant of the serial read loop — after processing any chunk
the retained buffer is either empty or begins with the sentinel `0xF0`,
and every frame broadcast to clients (in a single pass or across a whole
run) begins with `0xF0`. -/
theorem framer_buffer_invariant :
    (∀ buffer chunk : List Nat,
      (feedChunk buffer chunk).1 = [] ∨
        ((feedChunk buffer chunk).1).head? = some 240) ∧
    (∀ buffer chunk : List Nat, ∀ f ∈ (feedChunk buffer chunk).2,
      f.head? = some 240) ∧
    (∀ cs : List (List Nat), ∀ f ∈ (feedAll [] cs).2,
      f.head? = some 240) := by
  refine ⟨?_, feedChunk_frames_head, fun cs => feedAll_frames_head cs []⟩
  intro buffer chunk
  cases h : findF0 (buffer ++ chunk) with
  | none =>
    rw [feedChunk_of_none _ _ h]
    exact Or.inl rfl
  | some i =>
    rw [feedChunk_of_some _ _ h]
    exact Or.inr (extract_rest_head _ (findF0_drop_head h))

theorem framer_buffer_invariant_witness :
    ((feedChunk [240, 1] [2, 240, 3]).1 = [] ∨
      ((feedChunk [240, 1] [2, 240, 3]).1).head? = some 240) ∧
    ([240, 1, 2] : List Nat).head? = some 240 := by
  refine ⟨framer_buffer_invariant.1 [240, 1] [2, 240, 3], ?_⟩
  have hm : ([240, 1, 2] : List Nat) ∈ (feedChunk [240, 1] [2, 240, 3]).2 := by
    simp [feedChunk, findF0, extract]
  exact framer_buffer_invariant.2.1 [240, 1] [2, 240, 3] [240, 1, 2] hm

/-- Invariant of the command sequencer, relative to the list of frames
enqueued so far: transmitted frames followed by the pending queue equal
the enqueued frames in order; transmitted timestamps are at least 50 ms
apart; the last transmission is not in the future, and 50 ms have
elapsed since it whenever no drain is in flight; the ghost drain counter
mirrors `isProcessing`. -/
def SeqInv (s : SeqState) (queued : List Nat) : Prop :=
  s.sent.map Prod.snd ++ s.commandQueue = queued ∧
  List.Chain' (fun a b : Nat × Nat => a.1 + 50 ≤ b.1) s.sent ∧
  (∀ x ∈ s.sent.getLast?, x.1 ≤ s.now ∧
    (s.isProcessing = false → x.1 + 50 ≤ s.now)) ∧
  s.drains = (if s.isProcessing then 1 else 0)

lemma seqInit_inv : SeqInv seqInit [] := by
  refine ⟨rfl, List.chain'_nil, ?_, rfl⟩
  intro x hx
  simp [seqInit] at hx

lemma chain'_concat_50 {sent : List (Nat × Nat)} {y : Nat × Nat}
    (hchain : List.Chain' (fun a b : Nat × Nat => a.1 + 50 ≤ b.1) sent)
    (hlast : ∀ x ∈ sent.getLast?, x.1 + 50 ≤ y.1) :
    List.Chain' (fun a b : Nat × Nat => a.1 + 50 ≤ b.1) (sent ++ [y]) := by
  rw [List.chain'_append]
  refine ⟨hchain, List.chain'_singleton y, ?_⟩
  intro x hx z hz
  simp at hz
  subst hz
  exact hlast x hx

lemma seqStep_inv {s : SeqState} {queued : List Nat} (h : SeqInv s queued)
    (e : SeqEvent) : SeqInv (seqStep s e) (queued ++ enqs [e]) := by
  obtain ⟨hq, hchain, hlast, hdr⟩ := h
  cases e with
  | enq f =>
    simp only [enqs]
    cases hp : s.isProcessing with
    | true =>
      simp only [seqStep, hp, if_true]
      refine ⟨?_, hchain, ?_, ?_⟩
      · rw [← hq]
        simp
      · intro x hx
        exact ⟨(hlast x hx).1, by simp⟩
      · rw [hdr, hp]
    | false =>
      simp only [seqStep, hp, Bool.false_eq_true, if_false]
      cases hq2 : s.commandQueue ++ [f] with
      | nil => exact absurd hq2 (by simp)
      | cons g rest =>
        simp only []
        refine ⟨?_, ?_, ?_, ?_⟩
        · show (s.sent ++ [(s.now, g)]).map Prod.snd ++ rest = queued ++ [f]
          rw [← hq, List.map_append]
          simp [← hq2]
        · show List.Chain' _ (s.sent ++ [(s.now, g)])
          exact chain'_concat_50 hchain
            (fun x hx => (hlast x hx).2 hp)
        · show ∀ x ∈ (s.sent ++ [(s.now, g)]).getLast?, _
          intro x hx
          rw [List.getLast?_concat] at hx
          simp at hx
          subst hx
          exact ⟨le_refl _, by simp⟩
        · show s.drains + 1 = _
          rw [hdr, hp]
          simp
  | tick =>
    simp only [enqs, List.append_nil]
    cases hp : s.isProcessing with
    | false =>
      simpa [seqStep, hp] using ⟨hq, hchain, hlast, by rw [hdr, hp]⟩
    | true =>
      simp only [seqStep, hp, if_true]
      cases hq2 : s.commandQueue with
      | nil =>
        simp only []
        refine ⟨?_, hchain, ?_, ?_⟩
        · rw [← hq, hq2]
        · intro x hx
          have h1 := (hlast x hx).1
          constructor
          · show x.1 ≤ s.now + 50
            omega
          · intro _
            show x.1 + 50 ≤ s.now + 50
            omega
        · rw [hdr, hp]
          simp
      | cons g rest =>
        simp only []
        refine ⟨?_, ?_, ?_, ?_⟩
        · show (s.sent ++ [(s.now + 50, g)]).map Prod.snd ++ rest = queued
          rw [← hq, List.map_append, hq2]
          simp
        · show List.Chain' _ (s.sent ++ [(s.now + 50, g)])
          refine chain'_concat_50 hchain (fun x hx => ?_)
          have := (hlast x hx).1
          omega
        · show ∀ x ∈ (s.sent ++ [(s.now + 50, g)]).getLast?, _
          intro x hx
          rw [List.getLast?_concat] at hx
          simp at hx
          subst hx
          exact ⟨le_refl _, by simp [hp]⟩
        · rw [hdr, hp]

lemma enqs_cons (e : SeqEvent) (es : List SeqEvent) :
    enqs (e :: es) = enqs [e] ++ enqs es := by
  cases e <;> simp [enqs]

lemma seqRun_inv :
    ∀ (es : List SeqEvent) (s : SeqState) (queued : List Nat),
      SeqInv s queued → SeqInv (seqRun s es) (queued ++ enqs es) := by
  intro es
  induction es with
  | nil =>
    intro s queued h
    simpa [seqRun, enqs] using h
  | cons e es ih =>
    intro s queued h
    have h2 := ih (seqStep s e) (queued ++ enqs [e]) (seqStep_inv h e)
    rw [enqs_cons, ← List.append_assoc]
    exact h2

/-- C8: over every possible interleaving of enqueues and timer wakeups,
the sequencer transmits in first-in-first-out enqueue order (the
transmitted frames are a prefix of the enqueued frames, completed by the
still-pending queue), consecutive transmissions are at least the fixed
50 ms apart, and at most one drain loop is in flight at a time (the
ghost activation counter never exceeds 1). -/
theorem sequencer_fifo_spacing (es : List SeqEvent) :
    (∃ rest, (seqRun seqInit es).sent.map Prod.snd ++ rest = enqs es) ∧
    List.Chain' (fun a b : Nat × Nat => a.1 + 50 ≤ b.1)
      (seqRun seqInit es).sent ∧
    (seqRun seqInit es).drains ≤ 1 := by
  obtain ⟨hq, hchain, hlast, hdr⟩ := seqRun_inv es seqInit [] seqInit_inv
  refine ⟨⟨(seqRun seqInit es).commandQueue, by simpa using hq⟩, hchain, ?_⟩
  rw [hdr]
  split <;> omega

/-- C4 counterexample: `queueCommand(1)` on an idle sequencer starts the
drain, which synchronously sends frame 1 and suspends with
`isProcessing = true`; a second call `queueCommand(2)` arriving during
that suspension takes the `isProcessing` branch of script.js line 124,
so its returned promise resolves at once — at which point frame 2 has
not been transmitted (`sent` is unchanged) and still sits in the
queue.  The promise therefore does not resolve "only after that
specific frame has been transmitted". -/
theorem queueCommand_resolves_before_send :
    (seqStep seqInit (SeqEvent.enq 1)).isProcessing = true ∧
    (seqStep seqInit (SeqEvent.enq 1)).sent = [(0, 1)] ∧
    (seqStep (seqStep seqInit (SeqEvent.enq 1)) (SeqEvent.enq 2)).sent =
      [(0, 1)] ∧
    (seqStep (seqStep seqInit (SeqEvent.enq 1)) (SeqEvent.enq 2)).commandQueue
      = [2] := by
  decide

/-- C4 amended: the enqueue is always non-blocking (the call only
appends to the queue and returns), but the returned promise resolves
after the frame's transmission only when no drain loop is in flight at
enqueue time; when a drain is already in flight, the promise resolves
immediately upon enqueue, with the frame still queued and nothing new
transmitted.  When the sequencer is idle the synchronous part of the
drain transmits the frame before the awaited `processQueue` completes. -/
theorem queueCommand_resolution (s : SeqState) (f : Nat) :
    (s.isProcessing = true →
      (seqStep s (SeqEvent.enq f)).sent = s.sent ∧
      (seqStep s (SeqEvent.enq f)).commandQueue = s.commandQueue ++ [f]) ∧
    (s.isProcessing = false → s.commandQueue = [] →
      (seqStep s (SeqEvent.enq f)).sent = s.sent ++ [(s.now, f)]) := by
  constructor
  · intro hp
    simp [seqStep, hp]
  · intro hp hqe
    simp [seqStep, hp, hqe]

theorem queueCommand_resolution_witness :
    (⟨[], true, [], 0, 1⟩ : SeqState).isProcessing = true ∧
    (seqStep (⟨[], true, [], 0, 1⟩ : SeqState) (SeqEvent.enq 7)).sent = [] ∧
    seqInit.isProcessing = false ∧
    (seqStep seqInit (SeqEvent.enq 7)).sent = [(0, 7)] :=
  ⟨rfl,
   ((queueCommand_resolution (⟨[], true, [], 0, 1⟩ : SeqState) 7).1 rfl).1,
   rfl,
   (queueCommand_resolution seqInit 7).2 rfl rfl⟩

end DPS150
